import Mathlib

/-!
Shallow embedding of the federated-learning coordination core of
`aggregator_server.py` (class `FederatedAggregator`), with the message
framing layer shared by `federated_client.py`.

Numeric weight vectors are modelled as `List ℚ` (the Python code uses
numpy float64 arrays; the rational model captures the exact arithmetic
the weighted-average formula performs).  Python exceptions are modelled
as explicit failure values: the in-place numpy addition
`global_weights += factor * weights` either succeeds, broadcasts a
length-1 operand, or raises, which `npAddInPlace` returns as `Option`.
-/

/-- One entry of `self.received_weights`: the decoded payload of a
`weights` message (`receive_weights`, aggregator_server.py:118-145). -/
structure Contribution where
  client_id : String
  weights : List ℚ
  accuracy : ℚ
  samples : Nat
deriving DecidableEq

/-- The mutable coordinator state of `FederatedAggregator.__init__`
(aggregator_server.py:16-26): registered client ids (dict key order),
collected contributions, round counter and last aggregate. -/
structure AggState where
  target_clients : Nat
  clients : List String
  received_weights : List Contribution
  round_number : Nat
  global_weights : Option (List ℚ)
deriving DecidableEq

/-- Initial coordinator state: `round_number = 0`, no clients, no
contributions, `global_weights = None`. -/
def initState (tgt : Nat) : AggState :=
  { target_clients := tgt, clients := [], received_weights := [],
    round_number := 0, global_weights := none }

/-- `weight_factor * weights` — numpy scalar-vector product. -/
def scaleVec (q : ℚ) (v : List ℚ) : List ℚ :=
  v.map (fun x => q * x)

/-- numpy in-place `a += b` on 1-D arrays: succeeds elementwise when the
lengths agree, broadcasts `b` when it has length 1, and raises a
`ValueError` (modelled as `none`) otherwise. -/
def npAddInPlace (a b : List ℚ) : Option (List ℚ) :=
  if b.length = a.length then some (List.zipWith (fun x y => x + y) a b)
  else if b.length = 1 then some (a.map (fun x => x + b.headD 0))
  else none

/-- `np.zeros_like(all_weights[0])`. -/
def zerosLike (v : List ℚ) : List ℚ :=
  List.replicate v.length 0

/-- Accumulator of the averaging loop: the current value of
`self.global_weights` plus whether an exception has been raised
(`ok = false` once `samples / total_samples` divides by zero or the
in-place addition fails; the loop body is then skipped, modelling the
exception aborting the loop with the partial accumulation left behind). -/
structure AvgResult where
  global : List ℚ
  ok : Bool
deriving DecidableEq

/-- One iteration of the loop in `perform_federated_averaging`
(aggregator_server.py:163-165): `weight_factor = samples / total_samples;
global_weights += weight_factor * weights`. -/
def femaStep (total : Nat) (r : AvgResult) (c : Contribution) : AvgResult :=
  if r.ok = false then r
  else if total = 0 then { global := r.global, ok := false }
  else
    match npAddInPlace r.global (scaleVec ((c.samples : ℚ) / (total : ℚ)) c.weights) with
    | some g => { global := g, ok := true }
    | none => { global := r.global, ok := false }

/-- The whole accumulation loop over the received contributions. -/
def femaLoop (total : Nat) (g0 : List ℚ) (cs : List Contribution) : AvgResult :=
  cs.foldl (femaStep total) { global := g0, ok := true }

/-- `sum(sample_counts)`. -/
def totalSamples (cs : List Contribution) : Nat :=
  (cs.map Contribution.samples).sum

/-- `FederatedAggregator.perform_federated_averaging`
(aggregator_server.py:147-177).  On an empty contribution list the
subscript `all_weights[0]` raises before `global_weights` is assigned.
Otherwise `global_weights` is first set to zeros, then accumulated; on
success the contributions are cleared and `round_number` incremented
(lines 176-177), while an exception (caught by the caller
`receive_weights`) leaves the partial accumulation in `global_weights`
and everything else untouched.  The returned Bool is `true` iff the
averaging completed without exception. -/
def perform_federated_averaging (s : AggState) : AggState × Bool :=
  match s.received_weights with
  | [] => (s, false)
  | c0 :: _ =>
    let total := totalSamples s.received_weights
    let r := femaLoop total (zerosLike c0.weights) s.received_weights
    if r.ok then
      ({ s with global_weights := some r.global, received_weights := [],
                round_number := s.round_number + 1 }, true)
    else
      ({ s with global_weights := some r.global }, false)

/-- Observable coordinator actions: an invocation of
`perform_federated_averaging` (with the contribution count and
`round_number` at the moment of invocation and whether it succeeded) or
an invocation of `broadcast_start_training` (with the recipients and the
round number carried by the message). -/
inductive LogEntry where
  | agg (count round : Nat) (success : Bool)
  | startTraining (recipients : List String) (round : Nat)
deriving DecidableEq

/-- Python dict assignment `self.clients[client_id] = {...}`: keeps the
key order when the id is present, appends otherwise. -/
def upsertClient (l : List String) (id : String) : List String :=
  if id ∈ l then l else l ++ [id]

/-- `FederatedAggregator.register_client` (aggregator_server.py:94-116):
stores the client, then invokes `broadcast_start_training` whenever
`len(self.clients) >= self.target_clients`. -/
def register_client (s : AggState) (id : String) : AggState × List LogEntry :=
  let s1 := { s with clients := upsertClient s.clients id }
  if s.target_clients ≤ s1.clients.length then
    (s1, [LogEntry.startTraining s1.clients s1.round_number])
  else (s1, [])

/-- `FederatedAggregator.receive_weights` (aggregator_server.py:118-145):
unconditionally appends the decoded contribution, then invokes
`perform_federated_averaging` whenever
`len(self.received_weights) >= self.target_clients`;  any exception from
the averaging is caught and printed. -/
def receive_weights (s : AggState) (c : Contribution) : AggState × List LogEntry :=
  let s1 := { s with received_weights := s.received_weights ++ [c] }
  if s.target_clients ≤ s1.received_weights.length then
    let p := perform_federated_averaging s1
    (p.1, [LogEntry.agg s1.received_weights.length s1.round_number p.2])
  else (s1, [])

/-- The `finally` block of `FederatedAggregator.handle_client`
(aggregator_server.py:88-92): `del self.clients[client_id]` when present. -/
def handle_client_cleanup (s : AggState) (id : String) : AggState :=
  { s with clients := s.clients.erase id }

/-- The messages `handle_client` dispatches on (aggregator_server.py:77-84)
plus the handler terminating (disconnect / socket error). -/
inductive Event where
  | register (id : String)
  | weights (c : Contribution)
  | disconnect (id : String)
  | ping
deriving DecidableEq

/-- One dispatch of `handle_client` over the coordinator state. -/
def step (s : AggState) (e : Event) : AggState × List LogEntry :=
  match e with
  | Event.register id => register_client s id
  | Event.weights c => receive_weights s c
  | Event.disconnect id => (handle_client_cleanup s id, [])
  | Event.ping => (s, [])

/-- A sequential run of the coordinator over a list of events, collecting
the log of aggregation / start-broadcast invocations. -/
def run : AggState → List Event → AggState × List LogEntry
  | s, [] => (s, [])
  | s, e :: es =>
    let p := step s e
    let q := run p.1 es
    (q.1, p.2 ++ q.2)

/-- `FederatedAggregator.broadcast_global_weights`
(aggregator_server.py:193-209): iterates over every registered client
and sends the aggregate; a per-client send failure (the oracle `sendOk`
models which sockets raise) is caught and printed only.  Returns the
resulting coordinator state and the clients that received the message. -/
def broadcast_global_weights (s : AggState) (sendOk : String → Bool) :
    AggState × List String :=
  s.clients.foldl
    (fun acc cid => if sendOk cid then (acc.1, acc.2 ++ [cid]) else (acc.1, acc.2))
    (s, [])

/-- Component `i` of a vector (0 outside range). -/
def vecAt (v : List ℚ) (i : Nat) : ℚ :=
  v.getD i 0

/-- Numerator of the spec-side weighted mean: `Σ(weight_k * vector_k[i])`. -/
def weightedSumAt (cs : List Contribution) (i : Nat) : ℚ :=
  (cs.map (fun c => (c.samples : ℚ) * vecAt c.weights i)).sum

/-- Scenario A of the spec: sample counts [100,150,50], component-constant
5-vectors of 1, 2 and 3. -/
def scnA : List Contribution :=
  [ { client_id := "c1", weights := List.replicate 5 1, accuracy := 0, samples := 100 },
    { client_id := "c2", weights := List.replicate 5 2, accuracy := 0, samples := 150 },
    { client_id := "c3", weights := List.replicate 5 3, accuracy := 0, samples := 50 } ]

/-- Coordinator state holding exactly the Scenario A contributions. -/
def scnA_state : AggState :=
  { target_clients := 3, clients := ["c1", "c2", "c3"], received_weights := scnA,
    round_number := 0, global_weights := none }

/-- Log projection: success flag of an aggregation invocation. -/
def isSuccAgg : LogEntry → Bool
  | LogEntry.agg _ _ ok => ok
  | LogEntry.startTraining _ _ => false

/-- Number of successful aggregations recorded in a log. -/
def countSuccAggs (log : List LogEntry) : Nat :=
  (log.filter isSuccAgg).length

/-- Contribution counts at each aggregation invocation, in order. -/
def aggCounts (log : List LogEntry) : List Nat :=
  log.filterMap fun l =>
    match l with
    | LogEntry.agg cnt _ _ => some cnt
    | LogEntry.startTraining _ _ => none

/-- Round numbers at each aggregation invocation, in order. -/
def aggRounds (log : List LogEntry) : List Nat :=
  log.filterMap fun l =>
    match l with
    | LogEntry.agg _ rnd _ => some rnd
    | LogEntry.startTraining _ _ => none

/-- Success flags of each aggregation invocation, in order. -/
def aggOks (log : List LogEntry) : List Bool :=
  log.filterMap fun l =>
    match l with
    | LogEntry.agg _ _ ok => some ok
    | LogEntry.startTraining _ _ => none

/-- A contribution whose `samples` field is 0 (`message.get('samples', 0)`
in `receive_weights` defaults to 0 when the field is absent). -/
def zeroC (id : String) : Contribution :=
  { client_id := id, weights := [1], accuracy := 0, samples := 0 }

/-- Four zero-sample contributions against `target_clients = 3`: the third
triggers an aggregation that divides by zero, the fourth triggers a second
aggregation for the same round. -/
def c2Trace : List Event :=
  [Event.weights (zeroC ("a")), Event.weights (zeroC ("b")),
   Event.weights (zeroC ("c")), Event.weights (zeroC ("d"))]

/-- Three well-formed contributions (Scenario A) as events. -/
def c2GoodTrace : List Event := scnA.map Event.weights

/-- A state one zero-sample contribution short of a zero-total-weight
aggregation (`target_clients = 2`). -/
def c3State : AggState :=
  { target_clients := 2, clients := ["a", "b"], received_weights := [zeroC ("a")],
    round_number := 0, global_weights := none }

/-- A 5-element contribution. -/
def c4Len5 : Contribution :=
  { client_id := "p1", weights := [1, 1, 1, 1, 1], accuracy := 0, samples := 10 }

/-- A 4-element contribution — mismatched against `c4Len5`. -/
def c4Len4 : Contribution :=
  { client_id := "p2", weights := [1, 1, 1, 1], accuracy := 0, samples := 10 }

/-- A round that already accepted the 5-element contribution. -/
def c4State : AggState :=
  { target_clients := 3, clients := ["p1", "p2", "p3"], received_weights := [c4Len5],
    round_number := 0, global_weights := none }

/-- A contribution from a connection that never registered. -/
def ghostC : Contribution :=
  { client_id := "ghost", weights := [1, 2], accuracy := 0, samples := 5 }

/-- Two identical weights messages from the unregistered sender. -/
def c7Trace : List Event :=
  [Event.weights ghostC, Event.weights ghostC]

/-- A state already holding the ghost contribution (for the duplicate
submission variant). -/
def c7State : AggState :=
  { target_clients := 3, clients := [], received_weights := [ghostC],
    round_number := 0, global_weights := none }

/-- Four registrations against `target_clients = 3`. -/
def c8Trace : List Event :=
  [Event.register ("a"), Event.register ("b"), Event.register ("c"), Event.register ("d")]

/-- Three registered clients with an aggregate ready to broadcast. -/
def c9State : AggState :=
  { target_clients := 3, clients := ["a", "b", "c"], received_weights := [],
    round_number := 1, global_weights := some [1] }

/-- Send oracle under which only the socket of "b" raises. -/
def c9SendOk : String → Bool := fun id => !(id == "b")

/-!  ## Message framing layer

`send_message` / `receive_message` (aggregator_server.py:211-249, duplicated
verbatim in federated_client.py:193-231): a 4-byte big-endian length prefix
followed by the UTF-8 bytes of `json.dumps(message)`.  The messages the
system exchanges (see register_with_server / send_weights_to_server in the
client and register_client / broadcast_start_training /
broadcast_global_weights / the pong reply in the server) are fixed-shape
string-keyed dicts, serialized by `json.dumps` with its default separators
and key order = construction order.  `jsonDumps` below reproduces that
exact character output; `parsePayload` models `json.loads` on such
payloads.  String fields are restricted (`validMsg`) to printable ASCII
without `"` or `\`, for which `json.dumps` emits the characters verbatim
and UTF-8 encoding is the identity on code points; the float `accuracy`
field is modelled as the decimal literal `repr` produces (`DecNum`), which
Python round-trips exactly. -/

/-- A fixed-point decimal literal `intPart.frac`, the form `repr(float)`
produces for the accuracy values exchanged here. -/
structure DecNum where
  intPart : Nat
  frac : List Nat
deriving DecidableEq

/-- Base-10 digits (most significant first) with explicit fuel, so that
terms evaluate by kernel reduction. -/
def digitsGo : Nat → Nat → List Nat
  | _, 0 => []
  | 0, _ + 1 => []
  | fuel + 1, n + 1 => digitsGo fuel ((n + 1) / 10) ++ [(n + 1) % 10]

/-- Base-10 digits of `n`, most significant first. -/
def natDigits (n : Nat) : List Nat := digitsGo n n

/-- The characters `json.dumps` emits for a non-negative int. -/
def natChars (n : Nat) : List Char :=
  if n = 0 then ['0'] else (natDigits n).map Nat.digitChar

/-- The characters `json.dumps` emits for the float `intPart.frac`. -/
def decChars (d : DecNum) : List Char :=
  natChars d.intPart ++ '.' :: d.frac.map Nat.digitChar

/-- The seven message kinds exchanged on the wire, with their per-kind
fields (string payloads as character lists). -/
inductive Message where
  | register (client_id : List Char) (n_samples n_features : Nat)
  | registered (client_id : List Char) (round : Nat)
  | start_training (round : Nat)
  | weights (client_id weightsHex : List Char) (accuracy : DecNum) (samples round : Nat)
  | global_weights (weightsHex : List Char) (round : Nat)
  | ping
  | pong
deriving DecidableEq

def litHdr : String := "\x7b\"type\": \""

def kvClientId : String := ", \"client_id\": \""

def kvInfo : String := ", \"info\": \x7b\"n_samples\": "

def kvNFeat : String := ", \"n_features\": "

def kvRound : String := ", \"round\": "

def kvWeights : String := ", \"weights\": \""

def kvAccuracy : String := ", \"accuracy\": "

def kvSamples : String := ", \"samples\": "

def litEnd : String := "\x7d"

def litEnd2 : String := "\x7d\x7d"

def tyRegister : String := "register"

def tyRegistered : String := "registered"

def tyStart : String := "start_training"

def tyWeights : String := "weights"

def tyGlobal : String := "global_weights"

def tyPing : String := "ping"

def tyPong : String := "pong"

/-- The exact character output of `json.dumps` (default separators
`", "` / `": "`, insertion key order) on each message dict as the source
constructs it. -/
def jsonDumps : Message → List Char
  | Message.register cid ns nf =>
      litHdr.toList ++ tyRegister.toList ++ '"' :: kvClientId.toList ++ cid ++
        '"' :: kvInfo.toList ++ natChars ns ++ kvNFeat.toList ++ natChars nf ++
        litEnd2.toList
  | Message.registered cid r =>
      litHdr.toList ++ tyRegistered.toList ++ '"' :: kvClientId.toList ++ cid ++
        '"' :: kvRound.toList ++ natChars r ++ litEnd.toList
  | Message.start_training r =>
      litHdr.toList ++ tyStart.toList ++ '"' :: kvRound.toList ++ natChars r ++
        litEnd.toList
  | Message.weights cid hex acc sm r =>
      litHdr.toList ++ tyWeights.toList ++ '"' :: kvClientId.toList ++ cid ++
        '"' :: kvWeights.toList ++ hex ++ '"' :: kvAccuracy.toList ++ decChars acc ++
        kvSamples.toList ++ natChars sm ++ kvRound.toList ++ natChars r ++
        litEnd.toList
  | Message.global_weights hex r =>
      litHdr.toList ++ tyGlobal.toList ++ '"' :: kvWeights.toList ++ hex ++
        '"' :: kvRound.toList ++ natChars r ++ litEnd.toList
  | Message.ping => litHdr.toList ++ tyPing.toList ++ '"' :: litEnd.toList
  | Message.pong => litHdr.toList ++ tyPong.toList ++ '"' :: litEnd.toList

/-- Consume an expected literal character sequence. -/
def dropLit : List Char → List Char → Option (List Char)
  | [], s => some s
  | _ :: _, [] => none
  | p :: ps, c :: cs => if p = c then dropLit ps cs else none

/-- Consume a JSON string body up to its closing quote (the payloads the
system emits contain no escapes). -/
def takeStr : List Char → Option (List Char × List Char)
  | [] => none
  | c :: cs =>
    if c = '"' then some ([], cs)
    else
      match takeStr cs with
      | some (s, r) => some (c :: s, r)
      | none => none

def digitVal (c : Char) : Nat := c.toNat - '0'.toNat

/-- Greedy decimal accumulation, as `json.loads` reads an int. -/
def takeNatGo : Nat → List Char → Nat × List Char
  | acc, [] => (acc, [])
  | acc, c :: cs => if c.isDigit then takeNatGo (10 * acc + digitVal c) cs else (acc, c :: cs)

def takeNat : List Char → Option (Nat × List Char)
  | [] => none
  | c :: cs => if c.isDigit then some (takeNatGo (digitVal c) cs) else none

/-- Greedy raw digit sequence (the fractional digits of a float literal). -/
def takeDigits : List Char → List Nat × List Char
  | [] => ([], [])
  | c :: cs =>
    if c.isDigit then (digitVal c :: (takeDigits cs).1, (takeDigits cs).2)
    else ([], c :: cs)

/-- Read a fixed-point float literal `int.frac`. -/
def takeDec (s : List Char) : Option (DecNum × List Char) :=
  Option.bind (takeNat s) fun p =>
  match p.2 with
  | '.' :: r2 => some ({ intPart := p.1, frac := (takeDigits r2).1 }, (takeDigits r2).2)
  | _ => none

def headNotDigit : List Char → Bool
  | [] => true
  | c :: _ => !c.isDigit

def parseAfterRegister (s : List Char) : Option Message :=
  Option.bind (dropLit kvClientId.toList s) fun s1 =>
  Option.bind (takeStr s1) fun p1 =>
  Option.bind (dropLit kvInfo.toList p1.2) fun s2 =>
  Option.bind (takeNat s2) fun p2 =>
  Option.bind (dropLit kvNFeat.toList p2.2) fun s3 =>
  Option.bind (takeNat s3) fun p3 =>
  if p3.2 = litEnd2.toList then some (Message.register p1.1 p2.1 p3.1) else none

def parseAfterRegistered (s : List Char) : Option Message :=
  Option.bind (dropLit kvClientId.toList s) fun s1 =>
  Option.bind (takeStr s1) fun p1 =>
  Option.bind (dropLit kvRound.toList p1.2) fun s2 =>
  Option.bind (takeNat s2) fun p2 =>
  if p2.2 = litEnd.toList then some (Message.registered p1.1 p2.1) else none

def parseAfterStart (s : List Char) : Option Message :=
  Option.bind (dropLit kvRound.toList s) fun s1 =>
  Option.bind (takeNat s1) fun p =>
  if p.2 = litEnd.toList then some (Message.start_training p.1) else none

def parseAfterWeights (s : List Char) : Option Message :=
  Option.bind (dropLit kvClientId.toList s) fun s1 =>
  Option.bind (takeStr s1) fun p1 =>
  Option.bind (dropLit kvWeights.toList p1.2) fun s2 =>
  Option.bind (takeStr s2) fun p2 =>
  Option.bind (dropLit kvAccuracy.toList p2.2) fun s3 =>
  Option.bind (takeDec s3) fun p3 =>
  Option.bind (dropLit kvSamples.toList p3.2) fun s4 =>
  Option.bind (takeNat s4) fun p4 =>
  Option.bind (dropLit kvRound.toList p4.2) fun s5 =>
  Option.bind (takeNat s5) fun p5 =>
  if p5.2 = litEnd.toList then some (Message.weights p1.1 p2.1 p3.1 p4.1 p5.1) else none

def parseAfterGlobal (s : List Char) : Option Message :=
  Option.bind (dropLit kvWeights.toList s) fun s1 =>
  Option.bind (takeStr s1) fun p1 =>
  Option.bind (dropLit kvRound.toList p1.2) fun s2 =>
  Option.bind (takeNat s2) fun p2 =>
  if p2.2 = litEnd.toList then some (Message.global_weights p1.1 p2.1) else none

/-- `json.loads` on the payloads this system emits: dispatch on the
`type` value, then read the remaining fixed-order fields. -/
def parsePayload (s : List Char) : Option Message :=
  Option.bind (dropLit litHdr.toList s) fun s1 =>
  Option.bind (takeStr s1) fun p =>
  if p.1 = tyRegister.toList then parseAfterRegister p.2
  else if p.1 = tyRegistered.toList then parseAfterRegistered p.2
  else if p.1 = tyStart.toList then parseAfterStart p.2
  else if p.1 = tyWeights.toList then parseAfterWeights p.2
  else if p.1 = tyGlobal.toList then parseAfterGlobal p.2
  else if p.1 = tyPing.toList then (if p.2 = litEnd.toList then some Message.ping else none)
  else if p.1 = tyPong.toList then (if p.2 = litEnd.toList then some Message.pong else none)
  else none

/-- Printable ASCII, neither `"` nor `\`: characters `json.dumps` emits
verbatim and UTF-8 encodes as their own code point. -/
def jsonSafeChar (c : Char) : Bool :=
  decide (32 ≤ c.toNat) && decide (c.toNat < 127) && !(c == '"') && !(c == '\\')

def safeChars (s : List Char) : Bool := s.all jsonSafeChar

/-- The decimal forms `repr(float)` actually produces: at least one
fractional digit, all digits below 10. -/
def validDec (d : DecNum) : Bool :=
  !d.frac.isEmpty && d.frac.all (fun x => decide (x < 10))

/-- Valid messages: string fields are escape-free printable ASCII and the
accuracy field is a well-formed decimal literal. -/
def validMsg : Message → Bool
  | Message.register cid _ _ => safeChars cid
  | Message.registered cid _ => safeChars cid
  | Message.start_training _ => true
  | Message.weights cid hex acc _ _ => safeChars cid && safeChars hex && validDec acc
  | Message.global_weights hex _ => safeChars hex
  | Message.ping => true
  | Message.pong => true

/-- `message_length.to_bytes(4, byteorder='big')`. -/
def be4 (n : Nat) : List Nat :=
  [n / 2 ^ 24 % 256, n / 2 ^ 16 % 256, n / 2 ^ 8 % 256, n % 256]

/-- `int.from_bytes(length_bytes, byteorder='big')` on exactly 4 bytes. -/
def from4 : List Nat → Nat
  | [a, b, c, d] => ((a * 256 + b) * 256 + c) * 256 + d
  | _ => 0

/-- `message_json.encode('utf-8')` — identity on code points for the
ASCII payloads `validMsg` admits. -/
def encodeBytes (s : List Char) : List Nat := s.map Char.toNat

/-- `send_message` (aggregator_server.py:211-224): 4-byte big-endian
length prefix, then the encoded JSON payload. -/
def send_message (m : Message) : List Nat :=
  be4 (encodeBytes (jsonDumps m)).length ++ encodeBytes (jsonDumps m)

/-- The `recv` loop of `receive_message`: exactly `k` bytes or failure
(`None`) when the stream ends first. -/
def recvExact (k : Nat) (s : List Nat) : Option (List Nat × List Nat) :=
  if k ≤ s.length then some (s.take k, s.drop k) else none

/-- `receive_message` (aggregator_server.py:226-249): read 4 length
bytes, then that many payload bytes, then `json.loads` the UTF-8 text. -/
def receive_message (stream : List Nat) : Option Message :=
  Option.bind (recvExact 4 stream) fun p1 =>
  Option.bind (recvExact (from4 p1.1) p1.2) fun p2 =>
  parsePayload (p2.1.map Char.ofNat)

def c6Cid : String := "Client_127.0.0.1_54952"

def c6Hex : String := "9eb3a1c4d0"

/-- Concrete weights message: accuracy 0.85, 240 samples, round 3. -/
def c6Msg : Message :=
  Message.weights c6Cid.toList c6Hex.toList { intPart := 0, frac := [8, 5] } 240 3

theorem vecAt_zipWith_add (a b : List ℚ) (i : Nat) (hi : i < a.length)
    (hlen : b.length = a.length) :
    vecAt (List.zipWith (fun x y => x + y) a b) i = vecAt a i + vecAt b i := by
  have hz : i < (List.zipWith (fun x y : ℚ => x + y) a b).length := by
    rw [List.length_zipWith, hlen]
    simp [hi]
  rw [vecAt, vecAt, vecAt, List.getD_eq_getElem _ _ hz, List.getD_eq_getElem _ _ hi,
    List.getD_eq_getElem _ _ (hlen ▸ hi), List.getElem_zipWith]

theorem vecAt_scaleVec (q : ℚ) (v : List ℚ) (i : Nat) (hi : i < v.length) :
    vecAt (scaleVec q v) i = q * vecAt v i := by
  have hm : i < (scaleVec q v).length := by simpa [scaleVec] using hi
  rw [vecAt, vecAt, List.getD_eq_getElem _ _ hm, List.getD_eq_getElem _ _ hi]
  simp [scaleVec]

theorem length_zerosLike (v : List ℚ) : (zerosLike v).length = v.length := by
  simp [zerosLike]

theorem vecAt_zerosLike (v : List ℚ) (i : Nat) : vecAt (zerosLike v) i = 0 := by
  rcases Nat.lt_or_ge i v.length with h | h
  · have hm : i < (zerosLike v).length := by simpa [length_zerosLike] using h
    rw [vecAt, List.getD_eq_getElem _ _ hm]
    simp [zerosLike]
  · rw [vecAt, List.getD_eq_default]
    simpa [length_zerosLike] using h

theorem femaLoop_spec (L total : Nat) (hT : total ≠ 0) :
    ∀ (cs : List Contribution) (g : List ℚ), (∀ c ∈ cs, c.weights.length = L) →
      g.length = L →
      (femaLoop total g cs).ok = true ∧
      (femaLoop total g cs).global.length = L ∧
      ∀ i, i < L →
        vecAt (femaLoop total g cs).global i
          = vecAt g i + (cs.map (fun c => ((c.samples : ℚ) / (total : ℚ)) * vecAt c.weights i)).sum
  | [], g, _, hg => by
    refine ⟨rfl, hg, ?_⟩
    intro i _
    simp [femaLoop]
  | c :: cs, g, hcs, hg => by
    have hcw : c.weights.length = L := hcs c (List.mem_cons_self c cs)
    have hbl : (scaleVec ((c.samples : ℚ) / (total : ℚ)) c.weights).length = g.length := by
      simp [scaleVec, hcw, hg]
    have hstep :
        femaStep total { global := g, ok := true } c
          = { global := List.zipWith (fun x y => x + y) g
                (scaleVec ((c.samples : ℚ) / (total : ℚ)) c.weights), ok := true } := by
      rw [femaStep]
      simp only [Bool.true_eq_false, if_false, hT, if_false, npAddInPlace, hbl, if_true]
    have hlen1 : (List.zipWith (fun x y : ℚ => x + y) g
        (scaleVec ((c.samples : ℚ) / (total : ℚ)) c.weights)).length = L := by
      rw [List.length_zipWith, hbl, hg]
      simp
    have hrec := femaLoop_spec L total hT cs
      (List.zipWith (fun x y => x + y) g (scaleVec ((c.samples : ℚ) / (total : ℚ)) c.weights))
      (fun d hd => hcs d (List.mem_cons_of_mem c hd)) hlen1
    have hunfold : femaLoop total g (c :: cs)
        = femaLoop total (List.zipWith (fun x y => x + y) g
            (scaleVec ((c.samples : ℚ) / (total : ℚ)) c.weights)) cs := by
      rw [femaLoop, List.foldl_cons, hstep, femaLoop]
    refine ⟨by rw [hunfold]; exact hrec.1, by rw [hunfold]; exact hrec.2.1, ?_⟩
    intro i hi
    rw [hunfold]
    rw [hrec.2.2 i hi]
    rw [vecAt_zipWith_add g _ i (hg ▸ hi) hbl]
    rw [vecAt_scaleVec _ _ i (hcw ▸ hi)]
    simp [add_assoc]

theorem sum_div_factor (cs : List Contribution) (i : Nat) (T : ℚ) :
    (cs.map (fun c => ((c.samples : ℚ) / T) * vecAt c.weights i)).sum
      = weightedSumAt cs i / T := by
  induction cs with
  | nil => simp [weightedSumAt]
  | cons c cs ih =>
    simp only [List.map_cons, List.sum_cons, weightedSumAt] at *
    rw [ih, div_mul_eq_mul_div, add_div]

/-- **C1.** For every collected contribution set (all vectors of equal
length `L > 0`, positive total sample count), `perform_federated_averaging`
succeeds, clears the contributions, bumps the round, and stores a global
vector of length `L` whose `i`-th component is the exact weighted mean
`Σ(weight_k · vector_k[i]) / Σ(weight_k)`. -/
theorem c1_weighted_average_exact (s : AggState) (L : Nat) (hL : 0 < L)
    (hne : s.received_weights ≠ [])
    (hlen : ∀ c ∈ s.received_weights, c.weights.length = L)
    (hT : totalSamples s.received_weights ≠ 0) :
    (perform_federated_averaging s).2 = true ∧
    (perform_federated_averaging s).1.received_weights = [] ∧
    (perform_federated_averaging s).1.round_number = s.round_number + 1 ∧
    ∃ g, (perform_federated_averaging s).1.global_weights = some g ∧
      g.length = L ∧
      ∀ i, i < L →
        vecAt g i = weightedSumAt s.received_weights i
          / ((totalSamples s.received_weights : ℚ)) := by
  rcases hrw : s.received_weights with _ | ⟨c0, rest⟩
  · exact absurd hrw hne
  · have hc0 : c0.weights.length = L := by
      refine hlen c0 ?_
      rw [hrw]
      exact List.mem_cons_self c0 rest
    have hz : (zerosLike c0.weights).length = L := by rw [length_zerosLike, hc0]
    have hT' : totalSamples (c0 :: rest) ≠ 0 := by rw [← hrw]; exact hT
    have hspec := femaLoop_spec L (totalSamples (c0 :: rest)) hT' (c0 :: rest)
      (zerosLike c0.weights) (by rw [← hrw]; exact hlen) hz
    have hperf :
        perform_federated_averaging s =
          ({ s with
              global_weights :=
                some (femaLoop (totalSamples (c0 :: rest)) (zerosLike c0.weights)
                  (c0 :: rest)).global,
              received_weights := [],
              round_number := s.round_number + 1 },
            true) := by
      simp only [perform_federated_averaging, hrw]
      rw [if_pos hspec.1]
    refine ⟨by rw [hperf], by rw [hperf], by rw [hperf], ?_⟩
    refine ⟨(femaLoop (totalSamples (c0 :: rest)) (zerosLike c0.weights) (c0 :: rest)).global,
      by rw [hperf], hspec.2.1, ?_⟩
    intro i hi
    rw [hspec.2.2 i hi, vecAt_zerosLike, zero_add, sum_div_factor]

/-- Witness for C1: Scenario A — sample counts [100,150,50], constant
vectors 1, 2, 3 — aggregates to the constant vector 11/6 = 1.8333…. -/
theorem c1_weighted_average_exact_witness :
    ((perform_federated_averaging scnA_state).2 = true ∧
      (perform_federated_averaging scnA_state).1.received_weights = [] ∧
      (perform_federated_averaging scnA_state).1.round_number =
        scnA_state.round_number + 1 ∧
      ∃ g, (perform_federated_averaging scnA_state).1.global_weights = some g ∧
        g.length = 5 ∧
        ∀ i, i < 5 →
          vecAt g i = weightedSumAt scnA_state.received_weights i
            / ((totalSamples scnA_state.received_weights : ℚ))) ∧
    (perform_federated_averaging scnA_state).1.global_weights
      = some (List.replicate 5 (11 / 6)) := by
  constructor
  · exact c1_weighted_average_exact scnA_state 5 (by decide)
      (by simp [scnA_state, scnA])
      (by intro c hc; simp [scnA_state, scnA] at hc; rcases hc with h | h | h <;> subst h <;> simp)
      (by decide)
  · simp only [perform_federated_averaging, scnA_state, scnA, femaLoop, zerosLike,
      totalSamples]
    norm_num [femaStep, npAddInPlace, scaleVec, List.replicate, List.zipWith]

theorem digitsGo_lt_ten : ∀ fuel n, ∀ d ∈ digitsGo fuel n, d < 10 := by
  intro fuel
  induction fuel with
  | zero => intro n d hd; cases n <;> simp [digitsGo] at hd
  | succ fuel ih =>
    intro n d hd
    cases n with
    | zero => simp [digitsGo] at hd
    | succ n =>
      simp only [digitsGo, List.mem_append, List.mem_singleton] at hd
      rcases hd with h | h
      · exact ih _ d h
      · subst h; exact Nat.mod_lt _ (by norm_num)

theorem foldl_digitsGo : ∀ fuel n acc, n ≤ fuel →
    List.foldl (fun a d => 10 * a + d) acc (digitsGo fuel n)
      = acc * 10 ^ (digitsGo fuel n).length + n := by
  intro fuel
  induction fuel with
  | zero => intro n acc h; interval_cases n; simp [digitsGo]
  | succ fuel ih =>
    intro n acc h
    cases n with
    | zero => simp [digitsGo]
    | succ n =>
      have hdiv : (n + 1) / 10 ≤ fuel := by
        have := Nat.div_lt_self (Nat.succ_pos n) (by norm_num : 1 < 10)
        omega
      simp only [digitsGo, List.foldl_append, List.length_append, List.foldl_cons,
        List.foldl_nil, List.length_cons, List.length_nil]
      rw [ih _ acc hdiv]
      have hm := Nat.div_add_mod (n + 1) 10
      ring_nf
      omega

theorem digitsGo_ne_nil : ∀ fuel n, n ≠ 0 → n ≤ fuel → digitsGo fuel n ≠ [] := by
  intro fuel n hn h
  cases fuel with
  | zero => omega
  | succ fuel =>
    cases n with
    | zero => omega
    | succ n => simp [digitsGo]

theorem digitChar_isDigit : ∀ d, d < 10 → (Nat.digitChar d).isDigit = true := by decide

theorem digitVal_digitChar : ∀ d, d < 10 → digitVal (Nat.digitChar d) = d := by decide

theorem takeNatGo_append : ∀ (ds : List Nat) (acc : Nat) (r : List Char),
    (∀ d ∈ ds, d < 10) → headNotDigit r = true →
    takeNatGo acc (ds.map Nat.digitChar ++ r)
      = (List.foldl (fun a d => 10 * a + d) acc ds, r) := by
  intro ds
  induction ds with
  | nil =>
    intro acc r _ hr
    cases r with
    | nil => simp [takeNatGo]
    | cons c cs =>
      simp only [headNotDigit, Bool.not_eq_true'] at hr
      simp [takeNatGo, hr]
  | cons d ds ih =>
    intro acc r h10 hr
    have hd : d < 10 := h10 d (List.mem_cons_self d ds)
    simp only [List.map_cons, List.cons_append, takeNatGo, digitChar_isDigit d hd, if_true,
      digitVal_digitChar d hd]
    exact ih _ r (fun e he => h10 e (List.mem_cons_of_mem d he)) hr

theorem takeNat_natChars (n : Nat) (r : List Char) (hr : headNotDigit r = true) :
    takeNat (natChars n ++ r) = some (n, r) := by
  by_cases hn : n = 0
  · subst hn
    cases r with
    | nil => simp [natChars, takeNat, takeNatGo, digitVal]
    | cons c cs =>
      simp only [headNotDigit, Bool.not_eq_true'] at hr
      simp [natChars, takeNat, takeNatGo, digitVal, hr]
  · have hne : natDigits n ≠ [] := digitsGo_ne_nil n n hn (Nat.le_refl n)
    rcases List.exists_cons_of_ne_nil hne with ⟨d, ds, hds⟩
    have hd : d < 10 := by
      apply digitsGo_lt_ten n n
      rw [show digitsGo n n = natDigits n from rfl, hds]
      exact List.mem_cons_self d ds
    have hfold := foldl_digitsGo n n 0 (Nat.le_refl n)
    rw [natDigits] at hds
    simp only [natChars, hn, if_false, natDigits, hds, List.map_cons, List.cons_append,
      takeNat, digitChar_isDigit d hd, if_true, digitVal_digitChar d hd]
    rw [takeNatGo_append ds d r
      (by intro e he; apply digitsGo_lt_ten n n; rw [hds]; exact List.mem_cons_of_mem d he) hr]
    rw [hds] at hfold
    simp only [List.foldl_cons] at hfold
    rw [show 10 * 0 + d = d from by omega] at hfold
    rw [hfold]
    simp

theorem takeDigits_append : ∀ (ds : List Nat) (r : List Char),
    (∀ d ∈ ds, d < 10) → headNotDigit r = true →
    takeDigits (ds.map Nat.digitChar ++ r) = (ds, r) := by
  intro ds
  induction ds with
  | nil =>
    intro r _ hr
    cases r with
    | nil => rfl
    | cons c cs =>
      simp only [headNotDigit, Bool.not_eq_true'] at hr
      simp [takeDigits, hr]
  | cons d ds ih =>
    intro r h10 hr
    have hd : d < 10 := h10 d (List.mem_cons_self d ds)
    simp only [List.map_cons, List.cons_append, takeDigits, digitChar_isDigit d hd, if_true,
      digitVal_digitChar d hd, List.append_eq]
    rw [ih r (fun e he => h10 e (List.mem_cons_of_mem d he)) hr]

theorem dropLit_append : ∀ (p r : List Char), dropLit p (p ++ r) = some r := by
  intro p
  induction p with
  | nil => intro r; rfl
  | cons c cs ih => intro r; simp [dropLit, ih]

theorem takeStr_append : ∀ (s r : List Char), (∀ c ∈ s, (c = '"') = False) →
    takeStr (s ++ '"' :: r) = some (s, r) := by
  intro s
  induction s with
  | nil => intro r _; simp [takeStr]
  | cons c cs ih =>
    intro r h
    have hc : (c = '"') = False := h c (List.mem_cons_self c cs)
    simp only [List.cons_append, takeStr, hc, if_false, List.append_eq]
    rw [ih r (fun e he => h e (List.mem_cons_of_mem c he))]

theorem takeDec_decChars (d : DecNum) (r : List Char) (hd : validDec d = true)
    (hr : headNotDigit r = true) :
    takeDec (decChars d ++ r) = some (d, r) := by
  have h10 : ∀ e ∈ d.frac, e < 10 := by
    simp only [validDec, Bool.and_eq_true, List.all_eq_true] at hd
    intro e he
    simpa using hd.2 e he
  simp only [decChars, List.append_assoc, List.cons_append, takeDec]
  rw [takeNat_natChars d.intPart ('.' :: (List.map Nat.digitChar d.frac ++ r)) rfl]
  simp only [Option.some_bind]
  rw [takeDigits_append d.frac r h10 hr]

theorem safeChars_no_quote (s : List Char) (h : safeChars s = true) :
    ∀ c ∈ s, (c = '"') = False := by
  intro c hc
  simp only [safeChars, List.all_eq_true] at h
  have h2 := h c hc
  simp only [jsonSafeChar, Bool.and_eq_true, Bool.not_eq_true', beq_eq_false_iff_ne] at h2
  exact eq_false h2.1.2

theorem takeNat_kvNFeat (n : Nat) (X : List Char) :
    takeNat (natChars n ++ (kvNFeat.toList ++ X)) = some (n, kvNFeat.toList ++ X) :=
  takeNat_natChars n _ rfl

theorem takeNat_kvRound (n : Nat) (X : List Char) :
    takeNat (natChars n ++ (kvRound.toList ++ X)) = some (n, kvRound.toList ++ X) :=
  takeNat_natChars n _ rfl

theorem takeNat_litEnd (n : Nat) :
    takeNat (natChars n ++ litEnd.toList) = some (n, litEnd.toList) :=
  takeNat_natChars n _ rfl

theorem takeNat_litEnd2 (n : Nat) :
    takeNat (natChars n ++ litEnd2.toList) = some (n, litEnd2.toList) :=
  takeNat_natChars n _ rfl

theorem takeDec_kvSamples (d : DecNum) (X : List Char) (hd : validDec d = true) :
    takeDec (decChars d ++ (kvSamples.toList ++ X)) = some (d, kvSamples.toList ++ X) :=
  takeDec_decChars d _ hd rfl

theorem parsePayload_jsonDumps (m : Message) (hv : validMsg m = true) :
    parsePayload (jsonDumps m) = some m := by
  cases m with
  | register cid ns nf =>
    simp only [validMsg] at hv
    have hq := safeChars_no_quote cid hv
    simp only [jsonDumps, parsePayload, List.append_assoc, List.cons_append,
      dropLit_append, Option.some_bind]
    rw [takeStr_append _ _ (by decide)]
    simp only [Option.some_bind, if_true]
    simp only [parseAfterRegister, dropLit_append, Option.some_bind]
    rw [takeStr_append _ _ hq]
    simp only [Option.some_bind, dropLit_append]
    rw [takeNat_kvNFeat]
    simp only [Option.some_bind, dropLit_append]
    rw [takeNat_litEnd2]
    simp only [Option.some_bind, if_true]
  | registered cid r =>
    simp only [validMsg] at hv
    have hq := safeChars_no_quote cid hv
    simp only [jsonDumps, parsePayload, List.append_assoc, List.cons_append,
      dropLit_append, Option.some_bind]
    rw [takeStr_append _ _ (by decide)]
    simp only [Option.some_bind, if_true]
    simp only [parseAfterRegistered, dropLit_append, Option.some_bind]
    rw [takeStr_append _ _ hq]
    simp only [Option.some_bind, dropLit_append]
    rw [takeNat_litEnd]
    simp only [Option.some_bind, if_true]
    rw [if_neg (by decide : ¬ (tyRegistered.toList = tyRegister.toList))]
  | start_training r =>
    simp only [jsonDumps, parsePayload, List.append_assoc, List.cons_append,
      dropLit_append, Option.some_bind]
    rw [takeStr_append _ _ (by decide)]
    simp only [Option.some_bind, if_true]
    simp only [parseAfterStart, dropLit_append, Option.some_bind]
    rw [takeNat_litEnd]
    simp only [Option.some_bind, if_true]
    rw [if_neg (by decide : ¬ (tyStart.toList = tyRegister.toList)),
      if_neg (by decide : ¬ (tyStart.toList = tyRegistered.toList))]
  | weights cid hex acc sm r =>
    simp only [validMsg, Bool.and_eq_true] at hv
    have hqc := safeChars_no_quote cid hv.1.1
    have hqh := safeChars_no_quote hex hv.1.2
    simp only [jsonDumps, parsePayload, List.append_assoc, List.cons_append,
      dropLit_append, Option.some_bind]
    rw [takeStr_append _ _ (by decide)]
    simp only [Option.some_bind, if_true]
    simp only [parseAfterWeights, dropLit_append, Option.some_bind]
    rw [takeStr_append _ _ hqc]
    simp only [Option.some_bind, dropLit_append]
    rw [takeStr_append _ _ hqh]
    simp only [Option.some_bind, dropLit_append]
    rw [takeDec_kvSamples acc _ hv.2]
    simp only [Option.some_bind, dropLit_append]
    rw [takeNat_kvRound]
    simp only [Option.some_bind, dropLit_append]
    rw [takeNat_litEnd]
    simp only [Option.some_bind, if_true]
    rw [if_neg (by decide : ¬ (tyWeights.toList = tyRegister.toList)),
      if_neg (by decide : ¬ (tyWeights.toList = tyRegistered.toList)),
      if_neg (by decide : ¬ (tyWeights.toList = tyStart.toList))]
  | global_weights hex r =>
    simp only [validMsg] at hv
    have hq := safeChars_no_quote hex hv
    simp only [jsonDumps, parsePayload, List.append_assoc, List.cons_append,
      dropLit_append, Option.some_bind]
    rw [takeStr_append _ _ (by decide)]
    simp only [Option.some_bind, if_true]
    simp only [parseAfterGlobal, dropLit_append, Option.some_bind]
    rw [takeStr_append _ _ hq]
    simp only [Option.some_bind, dropLit_append]
    rw [takeNat_litEnd]
    simp only [Option.some_bind, if_true]
    rw [if_neg (by decide : ¬ (tyGlobal.toList = tyRegister.toList)),
      if_neg (by decide : ¬ (tyGlobal.toList = tyRegistered.toList)),
      if_neg (by decide : ¬ (tyGlobal.toList = tyStart.toList)),
      if_neg (by decide : ¬ (tyGlobal.toList = tyWeights.toList))]
  | ping =>
    simp only [jsonDumps, parsePayload, List.append_assoc, List.cons_append,
      dropLit_append, Option.some_bind]
    rw [takeStr_append _ _ (by decide)]
    simp only [Option.some_bind, if_true]
    rw [if_neg (by decide : ¬ (tyPing.toList = tyRegister.toList)),
      if_neg (by decide : ¬ (tyPing.toList = tyRegistered.toList)),
      if_neg (by decide : ¬ (tyPing.toList = tyStart.toList)),
      if_neg (by decide : ¬ (tyPing.toList = tyWeights.toList)),
      if_neg (by decide : ¬ (tyPing.toList = tyGlobal.toList))]
  | pong =>
    simp only [jsonDumps, parsePayload, List.append_assoc, List.cons_append,
      dropLit_append, Option.some_bind]
    rw [takeStr_append _ _ (by decide)]
    simp only [Option.some_bind, if_true]
    rw [if_neg (by decide : ¬ (tyPong.toList = tyRegister.toList)),
      if_neg (by decide : ¬ (tyPong.toList = tyRegistered.toList)),
      if_neg (by decide : ¬ (tyPong.toList = tyStart.toList)),
      if_neg (by decide : ¬ (tyPong.toList = tyWeights.toList)),
      if_neg (by decide : ¬ (tyPong.toList = tyGlobal.toList)),
      if_neg (by decide : ¬ (tyPong.toList = tyPing.toList))]

theorem from4_be4 (n : Nat) (h : n < 2 ^ 32) : from4 (be4 n) = n := by
  simp only [be4, from4]
  omega

theorem recvExact_append (a r : List Nat) (k : Nat) (hk : a.length = k) :
    recvExact k (a ++ r) = some (a, r) := by
  subst hk
  simp only [recvExact, List.length_append, List.take_left, List.drop_left]
  rw [if_pos (Nat.le_add_right _ _)]

theorem map_ofNat_toNat (s : List Char) : (s.map Char.toNat).map Char.ofNat = s := by
  simp [List.map_map, Function.comp_def, Char.ofNat_toNat]

/-- **C6.** For every valid message — ASCII string payloads without
escapes, well-formed decimal accuracy, framed length below 2^32 —
decoding the byte stream produced by encoding it (4-byte big-endian
length prefix + UTF-8 JSON payload) yields the message back, for any
trailing stream content. -/
theorem c6_message_roundtrip (m : Message) (hv : validMsg m = true)
    (hlen : (jsonDumps m).length < 2 ^ 32) (rest : List Nat) :
    receive_message (send_message m ++ rest) = some m := by
  have hb : (encodeBytes (jsonDumps m)).length = (jsonDumps m).length := by
    simp [encodeBytes]
  simp only [send_message, receive_message, List.append_assoc]
  rw [recvExact_append (be4 (encodeBytes (jsonDumps m)).length) _ 4 (by simp [be4])]
  simp only [Option.some_bind]
  rw [from4_be4 _ (by rw [hb]; exact hlen)]
  rw [recvExact_append _ _ _ rfl]
  simp only [Option.some_bind]
  rw [show (encodeBytes (jsonDumps m)).map Char.ofNat = jsonDumps m from map_ofNat_toNat _]
  exact parsePayload_jsonDumps m hv

set_option maxRecDepth 4096 in
/-- Witness for C6: a concrete weights message (hex-encoded vector blob,
accuracy 0.85, 240 samples, round 3) round-trips through the framing. -/
theorem c6_message_roundtrip_witness :
    validMsg c6Msg = true ∧ (jsonDumps c6Msg).length < 2 ^ 32 ∧
    receive_message (send_message c6Msg ++ []) = some c6Msg :=
  ⟨by decide, by decide, c6_message_roundtrip c6Msg (by decide) (by decide) []⟩

theorem perform_round_number (s : AggState) :
    (perform_federated_averaging s).1.round_number
      = s.round_number + (if (perform_federated_averaging s).2 then 1 else 0) := by
  rw [perform_federated_averaging]
  split
  · simp
  · rename_i c0 tail heq
    by_cases hok : (femaLoop (totalSamples s.received_weights) (zerosLike c0.weights)
        s.received_weights).ok = true
    · simp [hok]
    · simp [hok]

theorem step_round_number (s : AggState) (e : Event) :
    (step s e).1.round_number = s.round_number + countSuccAggs (step s e).2 := by
  cases e with
  | register id =>
    simp only [step, register_client]
    split <;> simp [countSuccAggs, isSuccAgg, List.filter]
  | weights c =>
    simp only [step, receive_weights]
    split
    · have hp := perform_round_number { s with received_weights := s.received_weights ++ [c] }
      cases hok : (perform_federated_averaging
          { s with received_weights := s.received_weights ++ [c] }).2 with
      | false =>
        rw [hok] at hp
        simp only [if_false] at hp
        simp [countSuccAggs, isSuccAgg, List.filter, hok, hp]
      | true =>
        rw [hok] at hp
        simp only [if_true] at hp
        simp [countSuccAggs, isSuccAgg, List.filter, hok, hp]
    · simp [countSuccAggs, List.filter]
  | disconnect id => simp [step, countSuccAggs, List.filter, handle_client_cleanup]
  | ping => simp [step, countSuccAggs, List.filter]

theorem countSuccAggs_append (l1 l2 : List LogEntry) :
    countSuccAggs (l1 ++ l2) = countSuccAggs l1 + countSuccAggs l2 := by
  simp [countSuccAggs, List.filter_append]

theorem run_round_number : ∀ (evs : List Event) (s : AggState),
    (run s evs).1.round_number = s.round_number + countSuccAggs (run s evs).2
  | [], s => by simp [run, countSuccAggs]
  | e :: es, s => by
    simp only [run]
    rw [countSuccAggs_append, run_round_number es (step s e).1, step_round_number]
    omega

/-- **C5.** `round_number` starts at 0 and over any event sequence equals
its initial value plus the number of successful aggregations: it
increases by exactly 1 per successful aggregation, is changed by no
other operation, and never decreases or resets. -/
theorem c5_round_number_increments_only_on_success :
    (∀ tgt, (initState tgt).round_number = 0) ∧
    (∀ s e, (step s e).1.round_number = s.round_number + countSuccAggs (step s e).2) ∧
    (∀ s evs, (run s evs).1.round_number = s.round_number + countSuccAggs (run s evs).2) ∧
    (∀ s evs, s.round_number ≤ (run s evs).1.round_number) :=
  ⟨fun _ => rfl, step_round_number,
    fun s evs => run_round_number evs s,
    fun s evs => by rw [run_round_number evs s]; omega⟩

theorem perform_cases (s : AggState) (c0 : Contribution) (tail : List Contribution)
    (hrw : s.received_weights = c0 :: tail) :
    perform_federated_averaging s
      = (if (femaLoop (totalSamples (c0 :: tail)) (zerosLike c0.weights) (c0 :: tail)).ok then
          ({ s with
              global_weights :=
                some (femaLoop (totalSamples (c0 :: tail)) (zerosLike c0.weights)
                  (c0 :: tail)).global,
              received_weights := [],
              round_number := s.round_number + 1 },
            true)
        else
          ({ s with
              global_weights :=
                some (femaLoop (totalSamples (c0 :: tail)) (zerosLike c0.weights)
                  (c0 :: tail)).global },
            false)) := by
  rw [perform_federated_averaging]
  simp only [hrw]

theorem perform_success_frame (s : AggState)
    (hsucc : (perform_federated_averaging s).2 = true) :
    (perform_federated_averaging s).1.received_weights = [] ∧
    (perform_federated_averaging s).1.round_number = s.round_number + 1 ∧
    (perform_federated_averaging s).1.target_clients = s.target_clients ∧
    (perform_federated_averaging s).1.clients = s.clients := by
  rcases hrw : s.received_weights with _ | ⟨c0, tail⟩
  · rw [perform_federated_averaging] at hsucc
    simp [hrw] at hsucc
  · rw [perform_cases s c0 tail hrw] at hsucc ⊢
    by_cases hok : (femaLoop (totalSamples (c0 :: tail)) (zerosLike c0.weights)
        (c0 :: tail)).ok = true
    · simp [hok]
    · simp [hok] at hsucc

theorem perform_fail_frame (s : AggState) (hne : s.received_weights ≠ [])
    (hfail : (perform_federated_averaging s).2 = false) :
    (perform_federated_averaging s).1.received_weights = s.received_weights ∧
    (perform_federated_averaging s).1.round_number = s.round_number ∧
    (perform_federated_averaging s).1.target_clients = s.target_clients ∧
    (perform_federated_averaging s).1.clients = s.clients ∧
    ∃ g, (perform_federated_averaging s).1.global_weights = some g := by
  rcases hrw : s.received_weights with _ | ⟨c0, tail⟩
  · exact absurd hrw hne
  · rw [perform_cases s c0 tail hrw] at hfail ⊢
    by_cases hok : (femaLoop (totalSamples (c0 :: tail)) (zerosLike c0.weights)
        (c0 :: tail)).ok = true
    · simp [hok] at hfail
    · simp [hok, hrw]

theorem perform_agree (s1 s2 : AggState)
    (hrw : s1.received_weights = s2.received_weights)
    (hr : s1.round_number = s2.round_number)
    (ht : s1.target_clients = s2.target_clients)
    (hg : s1.global_weights = s2.global_weights) :
    (perform_federated_averaging s1).1.received_weights
        = (perform_federated_averaging s2).1.received_weights ∧
    (perform_federated_averaging s1).1.round_number
        = (perform_federated_averaging s2).1.round_number ∧
    (perform_federated_averaging s1).1.target_clients
        = (perform_federated_averaging s2).1.target_clients ∧
    (perform_federated_averaging s1).1.global_weights
        = (perform_federated_averaging s2).1.global_weights ∧
    (perform_federated_averaging s1).1.clients = s1.clients ∧
    (perform_federated_averaging s2).1.clients = s2.clients ∧
    (perform_federated_averaging s1).2 = (perform_federated_averaging s2).2 := by
  rcases hrw2 : s2.received_weights with _ | ⟨c0, tail⟩
  · have hrw1 : s1.received_weights = [] := by rw [hrw, hrw2]
    rw [perform_federated_averaging, perform_federated_averaging]
    simp [hrw1, hrw2, hr, ht, hg]
  · have hrw1 : s1.received_weights = c0 :: tail := by rw [hrw, hrw2]
    rw [perform_cases s1 c0 tail hrw1, perform_cases s2 c0 tail hrw2]
    by_cases hok : (femaLoop (totalSamples (c0 :: tail)) (zerosLike c0.weights)
        (c0 :: tail)).ok = true
    · simp [hok, hr, ht]
    · simp [hok, hr, ht, hg, hrw1, hrw2]

theorem receive_below_threshold (s : AggState) (c : Contribution)
    (h : s.received_weights.length + 1 < s.target_clients) :
    receive_weights s c = ({ s with received_weights := s.received_weights ++ [c] }, []) := by
  rw [receive_weights]
  have hc : ¬ s.target_clients ≤
      (({ s with received_weights := s.received_weights ++ [c] } : AggState)).received_weights.length := by
    simp only [List.length_append, List.length_cons, List.length_nil]
    omega
  rw [if_neg hc]

theorem step_weights_trigger (s : AggState) (c : Contribution)
    (h : s.target_clients ≤ s.received_weights.length + 1) :
    step s (Event.weights c)
      = ((perform_federated_averaging
            { s with received_weights := s.received_weights ++ [c] }).1,
         [LogEntry.agg (s.received_weights.length + 1) s.round_number
            (perform_federated_averaging
              { s with received_weights := s.received_weights ++ [c] }).2]) := by
  simp only [step, receive_weights]
  rw [if_pos]
  · simp
  · simpa using h

theorem aggOks_append (l1 l2 : List LogEntry) :
    aggOks (l1 ++ l2) = aggOks l1 ++ aggOks l2 := by
  simp [aggOks, List.filterMap_append]

theorem aggCounts_append (l1 l2 : List LogEntry) :
    aggCounts (l1 ++ l2) = aggCounts l1 ++ aggCounts l2 := by
  simp [aggCounts, List.filterMap_append]

theorem aggRounds_append (l1 l2 : List LogEntry) :
    aggRounds (l1 ++ l2) = aggRounds l1 ++ aggRounds l2 := by
  simp [aggRounds, List.filterMap_append]

theorem step_register_frame (s : AggState) (id : String) :
    (step s (Event.register id)).1.received_weights = s.received_weights ∧
    (step s (Event.register id)).1.round_number = s.round_number ∧
    (step s (Event.register id)).1.target_clients = s.target_clients ∧
    aggOks (step s (Event.register id)).2 = [] ∧
    aggCounts (step s (Event.register id)).2 = [] ∧
    aggRounds (step s (Event.register id)).2 = [] := by
  simp only [step, register_client]
  split <;> simp [aggOks, aggCounts, aggRounds]

/-- **C10.** When a connection handler terminates, only that client's
registration entry is deleted — contributions, round number and global
vector are untouched; and since `receive_weights` and the averaging never
read the registration table, a previously submitted contribution still
counts toward the threshold and still enters the weighted average exactly
as it would have (the weights step behaves identically under any
registration table). -/
theorem c10_disconnect_preserves_contributions :
    (∀ s id, step s (Event.disconnect id)
        = ({ s with clients := s.clients.erase id }, [])) ∧
    (∀ s l c,
      (step { s with clients := l } (Event.weights c)).1.received_weights
        = (step s (Event.weights c)).1.received_weights ∧
      (step { s with clients := l } (Event.weights c)).1.round_number
        = (step s (Event.weights c)).1.round_number ∧
      (step { s with clients := l } (Event.weights c)).1.global_weights
        = (step s (Event.weights c)).1.global_weights ∧
      (step { s with clients := l } (Event.weights c)).2
        = (step s (Event.weights c)).2) := by
  constructor
  · intro s id
    rfl
  · intro s l c
    simp only [step, receive_weights]
    by_cases h : s.target_clients ≤ (s.received_weights ++ [c]).length
    · have hagree := perform_agree
        { s with clients := l, received_weights := s.received_weights ++ [c] }
        { s with received_weights := s.received_weights ++ [c] }
        rfl rfl rfl rfl
      rw [if_pos h, if_pos h]
      refine ⟨hagree.1, hagree.2.1, hagree.2.2.2.1, ?_⟩
      rw [hagree.2.2.2.2.2.2]
    · rw [if_neg h, if_neg h]
      exact ⟨rfl, rfl, rfl, rfl⟩

theorem broadcast_foldl (sendOk : String → Bool) :
    ∀ (l : List String) (st : AggState) (acc : List String),
      l.foldl (fun a cid => if sendOk cid then (a.1, a.2 ++ [cid]) else (a.1, a.2)) (st, acc)
        = (st, acc ++ l.filter sendOk) := by
  intro l
  induction l with
  | nil => intro st acc; simp
  | cons cid rest ih =>
    intro st acc
    by_cases h : sendOk cid = true
    · simp [List.foldl_cons, h, ih, List.filter_cons]
    · simp only [Bool.not_eq_true] at h
      simp [List.foldl_cons, h, ih, List.filter_cons]

/-- Counterexample to **C9**: with three registered clients and a send
failure on "b", the broadcast delivers to "a" and "c" but "b" is *not*
removed from the registration table (removal only happens when b's own
handler thread terminates). -/
theorem c9_counterexample :
    (broadcast_global_weights c9State c9SendOk).1.clients = c9State.clients ∧
    "b" ∈ (broadcast_global_weights c9State c9SendOk).1.clients ∧
    c9SendOk ("b") = false ∧
    (broadcast_global_weights c9State c9SendOk).2 = ["a", "c"] := by decide

/-- **C9 (amended).** The aggregate broadcast iterates over every
registered participant regardless of contribution; a failing send is
caught and logged only, so delivery to the others is unaffected (every
participant whose send succeeds receives the message), but the
coordinator state — including the registration table — is left entirely
unchanged: the failed participant is not marked disconnected or removed
during the broadcast. -/
theorem c9_broadcast_isolated_failures (s : AggState) (sendOk : String → Bool) :
    (broadcast_global_weights s sendOk).1 = s ∧
    (broadcast_global_weights s sendOk).2 = s.clients.filter sendOk := by
  rw [broadcast_global_weights, broadcast_foldl sendOk s.clients s []]
  exact ⟨rfl, by simp⟩

/-- Counterexample to **C8**: with `target_clients = 3`, the fourth
registration triggers a second start-training broadcast — the signal is
not sent exactly once. -/
theorem c8_counterexample :
    (run (initState 3) c8Trace).2 =
      [LogEntry.startTraining ["a", "b", "c"] 0,
       LogEntry.startTraining ["a", "b", "c", "d"] 0] := by decide

/-- **C8 (amended).** The start-training signal (carrying the current
`round_number`) is broadcast to every currently registered participant on
*every* registration that leaves the table size at or above
`target_clients` — once when the size first reaches the target, and again
on each later registration. -/
theorem c8_start_training_on_threshold (s : AggState) (id : String) :
    ((step s (Event.register id)).2 ≠ [] ↔
        s.target_clients ≤ (upsertClient s.clients id).length) ∧
    ((step s (Event.register id)).2 = [] ∨
      (step s (Event.register id)).2
        = [LogEntry.startTraining (upsertClient s.clients id) s.round_number]) ∧
    (step s (Event.register id)).1 = { s with clients := upsertClient s.clients id } := by
  simp only [step, register_client]
  by_cases h : s.target_clients ≤ (upsertClient s.clients id).length
  · rw [if_pos h]
    exact ⟨by simpa using h, Or.inr rfl, rfl⟩
  · rw [if_neg h]
    exact ⟨by simpa using h, Or.inl rfl, rfl⟩

/-- Counterexample to **C4**: a length-4 contribution arriving in a round
that already holds a length-5 contribution is appended anyway — the
round's contribution count increases and the stored vector lengths are
no longer all equal. -/
theorem c4_counterexample :
    (receive_weights c4State c4Len4).1.received_weights.length
        = c4State.received_weights.length + 1 ∧
    ¬ (∀ c1 ∈ (receive_weights c4State c4Len4).1.received_weights,
        ∀ c2 ∈ (receive_weights c4State c4Len4).1.received_weights,
          c1.weights.length = c2.weights.length) := by decide

/-- **C4 (amended).** `receive_weights` performs no vector-length
validation: a contribution whose length differs from every previously
accepted one is still appended and still increments the round's
contribution count (the mismatch only surfaces later, inside the
averaging).  Stated below the aggregation threshold so the appended list
is directly observable. -/
theorem c4_mismatched_length_still_appended (s : AggState) (c : Contribution)
    (hbelow : s.received_weights.length + 1 < s.target_clients)
    (hmis : ∃ c0 ∈ s.received_weights, c0.weights.length ≠ c.weights.length) :
    (step s (Event.weights c)).1
        = { s with received_weights := s.received_weights ++ [c] } ∧
    (step s (Event.weights c)).1.received_weights.length
        = s.received_weights.length + 1 ∧
    (step s (Event.weights c)).2 = [] := by
  have h := receive_below_threshold s c hbelow
  simp only [step, h]
  simp

/-- Witness for C4 (amended): the length-4 contribution after a length-5
one is appended and counted. -/
theorem c4_mismatched_length_still_appended_witness :
    (c4State.received_weights.length + 1 < c4State.target_clients) ∧
    (∃ c0 ∈ c4State.received_weights, c0.weights.length ≠ c4Len4.weights.length) ∧
    (step c4State (Event.weights c4Len4)).1
        = { c4State with received_weights := c4State.received_weights ++ [c4Len4] } ∧
    (step c4State (Event.weights c4Len4)).1.received_weights.length
        = c4State.received_weights.length + 1 ∧
    (step c4State (Event.weights c4Len4)).2 = [] := by
  refine ⟨by decide, by decide, ?_⟩
  have h := c4_mismatched_length_still_appended c4State c4Len4 (by decide) (by decide)
  exact ⟨h.1, h.2.1, h.2.2⟩

/-- Counterexample to **C7**: two weights messages from the same sender
"ghost", which never registered (the registration table stays empty),
are both accepted — round state changes, no rejection happens. -/
theorem c7_counterexample :
    (run (initState 3) c7Trace).1.clients = [] ∧
    ((run (initState 3) c7Trace).1.received_weights.map Contribution.client_id)
        = ["ghost", "ghost"] := by decide

/-- **C7 (amended).** `receive_weights` checks neither registration nor
duplication: a weights message from an unregistered connection, or a
second message from a participant that already contributed this round, is
appended like any other and increments the contribution count — there is
no `ClientError` rejection path and round state is modified. -/
theorem c7_unregistered_and_duplicate_accepted (s : AggState) (c : Contribution)
    (hbelow : s.received_weights.length + 1 < s.target_clients)
    (hbad : c.client_id ∉ s.clients ∨
        ∃ c0 ∈ s.received_weights, c0.client_id = c.client_id) :
    (step s (Event.weights c)).1
        = { s with received_weights := s.received_weights ++ [c] } ∧
    (step s (Event.weights c)).1.received_weights.length
        = s.received_weights.length + 1 ∧
    (step s (Event.weights c)).2 = [] := by
  have h := receive_below_threshold s c hbelow
  simp only [step, h]
  simp

/-- Witness for C7 (amended): a duplicate contribution from the
unregistered "ghost" is appended and counted. -/
theorem c7_unregistered_and_duplicate_accepted_witness :
    (c7State.received_weights.length + 1 < c7State.target_clients) ∧
    (ghostC.client_id ∉ c7State.clients ∨
        ∃ c0 ∈ c7State.received_weights, c0.client_id = ghostC.client_id) ∧
    (step c7State (Event.weights ghostC)).1
        = { c7State with received_weights := c7State.received_weights ++ [ghostC] } ∧
    (step c7State (Event.weights ghostC)).1.received_weights.length
        = c7State.received_weights.length + 1 ∧
    (step c7State (Event.weights ghostC)).2 = [] := by
  refine ⟨by decide, Or.inl (by decide), ?_⟩
  have h := c7_unregistered_and_duplicate_accepted c7State ghostC (by decide)
    (Or.inl (by decide))
  exact ⟨h.1, h.2.1, h.2.2⟩

/-- Counterexample to **C3**: two zero-sample contributions (target 2)
make the aggregation divide by zero; afterwards the contributions are
*not* cleared, and `global_weights` has been overwritten with the partial
result (the zero vector) even though aggregation failed. -/
theorem c3_counterexample :
    (receive_weights c3State (zeroC ("b"))).1.received_weights
        = [zeroC ("a"), zeroC ("b")] ∧
    (receive_weights c3State (zeroC ("b"))).1.round_number = 0 ∧
    (receive_weights c3State (zeroC ("b"))).1.global_weights = some [0] ∧
    (receive_weights c3State (zeroC ("b"))).2 = [LogEntry.agg 2 0 false] := by decide

/-- **C3 (amended).** When aggregation fails (zero total weight or
incompatible vector lengths), the exception is caught and logged in
`receive_weights`; there is no `AggregationError` type.  The contribution
list is left intact — *not* cleared — `round_number` and the registration
table are unchanged, and `global_weights` is overwritten with the
partially accumulated vector (the zero vector when the failure precedes
the first addition).  The coordinator keeps collecting; the round is not
retried explicitly. -/
theorem c3_failed_aggregation_keeps_contributions (s : AggState) (c : Contribution)
    (htrig : s.target_clients ≤ s.received_weights.length + 1)
    (hfail : (perform_federated_averaging
        { s with received_weights := s.received_weights ++ [c] }).2 = false) :
    (step s (Event.weights c)).1.received_weights = s.received_weights ++ [c] ∧
    (step s (Event.weights c)).1.round_number = s.round_number ∧
    (step s (Event.weights c)).1.clients = s.clients ∧
    (∃ g, (step s (Event.weights c)).1.global_weights = some g) ∧
    (step s (Event.weights c)).2
      = [LogEntry.agg (s.received_weights.length + 1) s.round_number false] := by
  have hne : (({ s with received_weights := s.received_weights ++ [c] } : AggState)).received_weights ≠ [] := by
    simp
  have hframe := perform_fail_frame _ hne hfail
  rw [step_weights_trigger s c htrig]
  refine ⟨?_, ?_, ?_, ?_, ?_⟩
  · rw [hframe.1]
  · rw [hframe.2.1]
  · rw [hframe.2.2.2.1]
  · exact hframe.2.2.2.2
  · rw [hfail]

/-- Witness for C3 (amended): the concrete zero-total-weight round. -/
theorem c3_failed_aggregation_keeps_contributions_witness :
    (c3State.target_clients ≤ c3State.received_weights.length + 1) ∧
    ((perform_federated_averaging
        { c3State with
            received_weights := c3State.received_weights ++ [zeroC ("b")] }).2 = false) ∧
    (step c3State (Event.weights (zeroC ("b")))).1.received_weights
        = c3State.received_weights ++ [zeroC ("b")] ∧
    (step c3State (Event.weights (zeroC ("b")))).1.round_number = c3State.round_number ∧
    (∃ g, (step c3State (Event.weights (zeroC ("b")))).1.global_weights = some g) := by
  refine ⟨by decide, by decide, ?_⟩
  have h := c3_failed_aggregation_keeps_contributions c3State (zeroC ("b"))
    (by decide) (by decide)
  exact ⟨h.1, h.2.1, h.2.2.2.1⟩

/-- Counterexample to **C2**: after an aggregation fails (zero total
weight) the contributions are not cleared, so the next contribution
triggers a second `perform_federated_averaging` invocation for the same
`round_number`, at a contribution count of 4 ≠ target 3 — aggregation is
neither "only at count = target" nor "at most once per round". -/
theorem c2_counterexample :
    ¬ ((∀ cnt ∈ aggCounts (run (initState 3) c2Trace).2, cnt = 3) ∧
       List.Pairwise (fun a b => a ≠ b) (aggRounds (run (initState 3) c2Trace).2)) := by
  decide

theorem aggCounts_nil : aggCounts [] = [] := rfl

theorem aggRounds_nil : aggRounds [] = [] := rfl

theorem aggOks_nil : aggOks [] = [] := rfl

theorem aggCounts_agg (c r : Nat) (ok : Bool) :
    aggCounts [LogEntry.agg c r ok] = [c] := rfl

theorem aggRounds_agg (c r : Nat) (ok : Bool) :
    aggRounds [LogEntry.agg c r ok] = [r] := rfl

theorem aggOks_agg (c r : Nat) (ok : Bool) :
    aggOks [LogEntry.agg c r ok] = [ok] := rfl

theorem run_agg_invariant (tgt : Nat) (htgt : 1 ≤ tgt) (evs : List Event) :
    ∀ (s : AggState), s.target_clients = tgt → s.received_weights.length < tgt →
      (∀ b ∈ aggOks (run s evs).2, b = true) →
      (∀ cnt ∈ aggCounts (run s evs).2, cnt = tgt) ∧
      (∀ rnd ∈ aggRounds (run s evs).2, s.round_number ≤ rnd) ∧
      List.Pairwise (fun a b => a < b) (aggRounds (run s evs).2) ∧
      (run s evs).1.received_weights.length < tgt ∧
      (run s evs).1.target_clients = tgt := by
  induction evs with
  | nil =>
    intro s ht hlen _
    exact ⟨by simp [run, aggCounts_nil], by simp [run, aggRounds_nil],
      by simp [run, aggRounds_nil], hlen, ht⟩
  | cons e es ih =>
    intro s ht hlen hsucc
    simp only [run] at hsucc ⊢
    rw [aggOks_append] at hsucc
    have hsucc1 : ∀ b ∈ aggOks (step s e).2, b = true :=
      fun b hb => hsucc b (List.mem_append_left _ hb)
    have hsucc2 : ∀ b ∈ aggOks (run (step s e).1 es).2, b = true :=
      fun b hb => hsucc b (List.mem_append_right _ hb)
    rw [aggCounts_append, aggRounds_append]
    cases e with
    | register id =>
      obtain ⟨hrw, hrnd, htc, hoks, hcnts, hrnds⟩ := step_register_frame s id
      have IH := ih (step s (Event.register id)).1 (by rw [htc, ht])
        (by rw [hrw]; exact hlen) hsucc2
      rw [hcnts, hrnds]
      simp only [List.nil_append]
      refine ⟨IH.1, ?_, IH.2.2.1, IH.2.2.2.1, IH.2.2.2.2⟩
      intro rnd hr
      have h2 := IH.2.1 rnd hr
      rwa [hrnd] at h2
    | ping =>
      simp only [step] at hsucc2 ⊢
      have IH := ih s ht hlen hsucc2
      rw [aggCounts_nil, aggRounds_nil]
      simp only [List.nil_append]
      exact IH
    | disconnect id =>
      simp only [step] at hsucc2 ⊢
      have IH := ih (handle_client_cleanup s id) ht hlen hsucc2
      rw [aggCounts_nil, aggRounds_nil]
      simp only [List.nil_append]
      exact IH
    | weights c =>
      by_cases htrig : s.target_clients ≤ s.received_weights.length + 1
      · have hcnt : s.received_weights.length + 1 = tgt := by omega
        have hstep := step_weights_trigger s c htrig
        simp only [hstep] at hsucc1 hsucc2 ⊢
        have hok : (perform_federated_averaging
            { s with received_weights := s.received_weights ++ [c] }).2 = true := by
          apply hsucc1
          rw [aggOks_agg]
          exact List.mem_singleton_self _
        obtain ⟨hre, hrnd, htc, hcl⟩ := perform_success_frame
          { s with received_weights := s.received_weights ++ [c] } hok
        have IH := ih (perform_federated_averaging
            { s with received_weights := s.received_weights ++ [c] }).1
          (by rw [htc]; exact ht)
          (by rw [hre]; simpa using htgt)
          hsucc2
        have hrnd2 : (perform_federated_averaging
            { s with received_weights := s.received_weights ++ [c] }).1.round_number
              = s.round_number + 1 := hrnd
        rw [aggCounts_agg, aggRounds_agg, List.singleton_append, List.singleton_append]
        refine ⟨?_, ?_, ?_, IH.2.2.2.1, IH.2.2.2.2⟩
        · intro cnt hc
          rcases List.mem_cons.mp hc with h | h
          · rw [h]; exact hcnt
          · exact IH.1 cnt h
        · intro rnd hr
          rcases List.mem_cons.mp hr with h | h
          · subst h; exact Nat.le_refl _
          · have h2 := IH.2.1 rnd h
            rw [hrnd2] at h2
            omega
        · refine List.Pairwise.cons ?_ IH.2.2.1
          intro rnd hr
          have h2 := IH.2.1 rnd hr
          rw [hrnd2] at h2
          omega
      · have hlt : s.received_weights.length + 1 < s.target_clients := by omega
        have hstep : step s (Event.weights c)
            = ({ s with received_weights := s.received_weights ++ [c] }, []) := by
          simp only [step]
          exact receive_below_threshold s c hlt
        simp only [hstep, aggCounts_nil, aggRounds_nil] at hsucc2 ⊢
        have IH := ih { s with received_weights := s.received_weights ++ [c] } ht
          (by
            show (s.received_weights ++ [c]).length < tgt
            rw [List.length_append]
            simp only [List.length_cons, List.length_nil]
            omega)
          hsucc2
        simp only [List.nil_append]
        exact IH

/-- **C2 (amended).** In any run from the initial state in which every
aggregation invocation succeeds, aggregation is invoked exactly when the
contribution count reaches `target_clients` — every invocation happens at
count = target, the rounds of successive invocations strictly increase
(so no round aggregates twice), the coordinator always holds fewer than
`target_clients` contributions between events, and the next weights
message triggers an invocation if and only if it brings the count to
exactly `target_clients`.  (After a *failed* aggregation the contributions
are not cleared, and a later invocation can occur at count > target for
the same round — see the counterexample.) -/
theorem c2_aggregation_exactly_once_when_successful (tgt : Nat) (htgt : 1 ≤ tgt)
    (evs : List Event)
    (hsucc : ∀ b ∈ aggOks (run (initState tgt) evs).2, b = true) :
    (∀ cnt ∈ aggCounts (run (initState tgt) evs).2, cnt = tgt) ∧
    List.Pairwise (fun a b => a < b) (aggRounds (run (initState tgt) evs).2) ∧
    (run (initState tgt) evs).1.received_weights.length < tgt ∧
    (∀ c, (step (run (initState tgt) evs).1 (Event.weights c)).2 ≠ [] ↔
        (run (initState tgt) evs).1.received_weights.length + 1 = tgt) := by
  have H := run_agg_invariant tgt htgt evs (initState tgt) rfl (by simpa using htgt) hsucc
  refine ⟨H.1, H.2.2.1, H.2.2.2.1, ?_⟩
  intro c
  constructor
  · intro hne
    by_contra hne2
    have hlt : (run (initState tgt) evs).1.received_weights.length + 1
        < (run (initState tgt) evs).1.target_clients := by
      rw [H.2.2.2.2]
      have := H.2.2.2.1
      omega
    have hb := receive_below_threshold (run (initState tgt) evs).1 c hlt
    simp only [step, hb] at hne
    exact hne rfl
  · intro heq
    have htrig : (run (initState tgt) evs).1.target_clients
        ≤ (run (initState tgt) evs).1.received_weights.length + 1 := by
      rw [H.2.2.2.2]
      omega
    rw [step_weights_trigger _ c htrig]
    simp

/-- Witness for C2 (amended): three well-formed Scenario A contributions
against target 3 — one successful aggregation, invoked at count 3. -/
theorem c2_aggregation_exactly_once_when_successful_witness :
    ((1 : Nat) ≤ 3) ∧ (∀ b ∈ aggOks (run (initState 3) c2GoodTrace).2, b = true) ∧
    ((∀ cnt ∈ aggCounts (run (initState 3) c2GoodTrace).2, cnt = 3) ∧
     List.Pairwise (fun a b => a < b) (aggRounds (run (initState 3) c2GoodTrace).2) ∧
     (run (initState 3) c2GoodTrace).1.received_weights.length < 3 ∧
     (∀ c, (step (run (initState 3) c2GoodTrace).1 (Event.weights c)).2 ≠ [] ↔
        (run (initState 3) c2GoodTrace).1.received_weights.length + 1 = 3)) :=
  ⟨by decide, by decide,
    c2_aggregation_exactly_once_when_successful 3 (by decide) c2GoodTrace (by decide)⟩
